import Mathlib

/-!
Verification of the tootfyre post-deletion tool (main.go) against its
natural-language specification.

The Go program is a single sequential poll-filter-delete loop.  We embed it
shallowly:

* pure data (`Cmd`, `Config`, `Status`, pagination pages) become structures;
* the per-status exclusion filter inlined in `Cmd.Run` (main.go lines
  197-222) becomes the Boolean function `eligible`;
* the pagination loop (lines 172-243) becomes the structural recursion
  `scanPages` over the finite list of page-fetch outcomes the remote service
  would deliver (the list is the external input; exhausting it plays the
  role of fuel and never changes a finite behaviour we reason about);
* the deletion loop (lines 246-271) becomes `execLoop`, run over the
  reversed candidate list exactly as the Go `for idx := len-1; idx >= 0`
  loop does;
* `Cmd.Run` as a whole becomes `Cmd.Run`, a function from the external-world
  outcomes (decoded config, registration result, account lookup, pages,
  per-id deletion results) to a `RunResult` recording the network calls
  made, the candidate list, the logged messages and the returned error.

Time is modelled as `Int` nanoseconds (Go `time.Duration` / `time.Time`
comparisons are strict `<` via `Before`).
-/

/-- One nanosecond-denominated second, matching Go `time.Second`. -/
def second : Int := 1000000000

/-- Go constant `timeMax = -(30 * (24 * (60 * (60 * time.Second))))`:
minus thirty days, in nanoseconds. -/
def timeMax : Int := -(30 * (24 * (60 * (60 * second))))

/-- Go constant `paginationLimit = 200`. -/
def paginationLimit : Int := 200

/-- go-mastodon constant `VisibilityPublic`. -/
def VisibilityPublic : String := "public"

/-- go-mastodon constant `VisibilityDirectMessage`. -/
def VisibilityDirectMessage : String := "direct"

/-- The CLI flag set of the program (struct `Cmd` in main.go).  Go `int`
is modelled as `Int`. -/
structure Cmd where
  config : String
  slow : Bool
  excludeReplies : Bool
  excludePinned : Bool
  excludeBookmarked : Bool
  excludePublic : Bool
  excludeBoosts : Bool
  excludeDirect : Bool
  count : Int
  dryRun : Bool
  quiet : Bool
  burnItAll : Bool
deriving DecidableEq, Repr

/-- The TOML config file contents (struct `Config` in main.go). -/
structure Config where
  server : String
  clientID : String
  clientSecret : String
  accessToken : String
deriving DecidableEq, Repr

/-- A fetched post (go-mastodon `Status`), restricted to the fields the
program reads.  `inReplyToID = some _` models `InReplyToID != nil`;
`reblog = true` models `Reblog != nil` (the program only tests the pointer
for nil-ness); `createdAt` is the creation time in nanoseconds. -/
structure Status where
  id : String
  url : String
  createdAt : Int
  content : String
  inReplyToID : Option String
  reblog : Bool
  visibility : String
  pinned : Bool
  bookmarked : Bool
  favourited : Bool
deriving DecidableEq, Repr

/-- The per-status filter inlined in `Cmd.Run` (main.go lines 197-222):
returns `true` exactly when the status is appended to `toDelete`.  Each
`continue` of the Go code is a `false` branch; the chain mirrors the Go
`switch` order.  `endTime = now + timeMax`. -/
def eligible (cmd : Cmd) (endTime : Int) (status : Status) : Bool :=
  if !cmd.burnItAll then
    if !(status.createdAt < endTime) then false
    else if cmd.excludePinned && status.pinned then false
    else if cmd.excludePublic && status.visibility == VisibilityPublic then false
    else if cmd.excludeBookmarked && status.bookmarked then false
    else if cmd.excludeBoosts && status.reblog then false
    else if cmd.excludeReplies && status.inReplyToID.isSome then false
    else if cmd.excludeDirect && status.visibility == VisibilityDirectMessage then false
    else true
  else true

/-- The inner `for id := range statuses` loop of `Cmd.Run` (lines 182-228):
walks the page in arrival order, appending eligible statuses to `toDelete`;
after each append, `len(toDelete) >= cmd.Count` triggers `break LOOP`.
Returns the grown list and whether the labelled break fired. -/
def processStatuses (cmd : Cmd) (endTime : Int) (toDelete : List Status) :
    List Status → List Status × Bool
  | [] => (toDelete, false)
  | status :: rest =>
    if eligible cmd endTime status then
      let td := toDelete ++ [status]
      if (td.length : Int) ≥ cmd.count then (td, true)
      else processStatuses cmd endTime td rest
    else processStatuses cmd endTime toDelete rest

/-- One successful page fetch, as the go-mastodon client leaves it: the
statuses returned and the pagination bounds (`pg.MaxID`, `pg.MinID`) the
client parsed out of the Link headers of the response.  An empty string is
the zero value of `mastodon.ID`, i.e. an absent bound. -/
structure Page where
  statuses : List Status
  maxID : String
  minID : String
deriving DecidableEq, Repr

/-- The outer `LOOP` of `Cmd.Run` (lines 172-243), run against the finite
list of fetch outcomes the service would deliver in order.  Each element is
one `GetAccountStatuses` answer: an error (fatal, returned as the error of
`Run`) or a `Page`.  After the inner loop, the Go code breaks out of `LOOP`
when the labelled break fired, when `pg.MaxID == ""`, or when
`pg.MinID == ""`; otherwise it clears `SinceID`/`MinID`, resets the limit
and fetches again.  Returns the final `toDelete` (or the fatal fetch error)
together with the number of pages actually fetched. -/
def scanPages (cmd : Cmd) (endTime : Int) :
    List (Except String Page) → List Status → Except String (List Status) × Nat
  | [], toDelete => (Except.ok toDelete, 0)
  | Except.error e :: _, _ => (Except.error e, 1)
  | Except.ok page :: rest, toDelete =>
    let pr := processStatuses cmd endTime toDelete page.statuses
    if pr.2 then (Except.ok pr.1, 1)
    else if page.maxID == "" then (Except.ok pr.1, 1)
    else if page.minID == "" then (Except.ok pr.1, 1)
    else
      let r := scanPages cmd endTime rest pr.1
      (r.1, r.2 + 1)

/-- The order in which the deletion loop walks the candidate list:
`for idx := len(toDelete) - 1; idx >= 0; idx--` visits the list back to
front. -/
def deletionOrder (toDelete : List Status) : List Status := toDelete.reverse

/-- What the deletion loop body (lines 246-271) produces, in processing
order: the status IDs passed to `DeleteStatus`, the deletion errors that
were logged (and swallowed), and the IDs logged as would-be deletions in
dry-run mode. -/
structure ExecResult where
  deleteCalls : List String
  deleteErrors : List String
  dryRunLogs : List String
deriving DecidableEq, Repr

/-- The deletion loop over the candidates in processing order (the input is
`deletionOrder toDelete`).  `deleteResults id` is the outcome the service
would give to `DeleteStatus(id)`: `some e` is a failure with error `e`,
which the Go code logs and then continues; `none` is success.  In dry-run
mode no call is issued and the would-be deletion is logged. -/
def execLoop (cmd : Cmd) (deleteResults : String → Option String) :
    List Status → ExecResult
  | [] => ⟨[], [], []⟩
  | status :: rest =>
    let r := execLoop cmd deleteResults rest
    if cmd.dryRun then
      ⟨r.deleteCalls, r.deleteErrors, status.id :: r.dryRunLogs⟩
    else
      match deleteResults status.id with
      | some e => ⟨status.id :: r.deleteCalls, e :: r.deleteErrors, r.dryRunLogs⟩
      | none => ⟨status.id :: r.deleteCalls, r.deleteErrors, r.dryRunLogs⟩

/-- Outcome of the file-system and decoding part of `Cmd.LoadConfig`
(stat, open, TOML decode — external effects): either one of those steps
failed with an error, or a `Config` was decoded. -/
inductive LoadOutcome where
  | statErr (e : String)
  | openErr (e : String)
  | decodeErr (e : String)
  | decoded (config : Config)
deriving DecidableEq, Repr

/-- Error message of `Cmd.LoadConfig` for a missing server field.  (The Go
string wraps the field name in single quotation marks; we elide the marks.) -/
def errServerRequired : String := "server is required in config"

/-- Error message of `Cmd.LoadConfig` for a missing access token.  (The Go
string wraps the field name in single quotation marks; we elide the marks.) -/
def errAccessTokenRequired : String :=
  "accesstoken is required in config. get this from headers in an existing UI client"

/-- `Cmd.LoadConfig` (main.go lines 61-88): propagate any stat/open/decode
failure; then require `Server` and `AccessToken` to be non-empty, in that
order. -/
def Cmd.LoadConfig : LoadOutcome → Except String Config
  | LoadOutcome.statErr e => Except.error e
  | LoadOutcome.openErr e => Except.error e
  | LoadOutcome.decodeErr e => Except.error e
  | LoadOutcome.decoded config =>
    if config.server == "" then Except.error errServerRequired
    else if config.accessToken == "" then Except.error errAccessTokenRequired
    else Except.ok config

/-- A network call issued by `Cmd.Run`, in the order they appear in the
code: `RegisterApp`, `GetAccountCurrentUser`, `GetAccountStatuses`.
(`DeleteStatus` calls are recorded separately in `ExecResult`.) -/
inductive NetworkCall where
  | registerApp
  | getAccount
  | listStatuses
deriving DecidableEq, Repr

/-- Every external outcome `Cmd.Run` consumes: the config-file read, the
app-registration answer, the answer to writing the config back, the
current-account lookup, the page fetches and the per-ID deletion outcomes. -/
structure RunWorld where
  load : LoadOutcome
  registerApp : Except String (String × String)
  writeConfig : Except String Unit
  getAccount : Except String String
  pages : List (Except String Page)
  deleteResults : String → Option String

/-- Observable outcome of one `Cmd.Run`: the pre-deletion network calls in
order, the deletion-loop record, the accumulated candidate list, and the
error `Run` returned (`none` models a `nil` return, hence exit status 0). -/
structure RunResult where
  preCalls : List NetworkCall
  exec : ExecResult
  toDelete : List Status
  ret : Option String

/-- The tail of `Cmd.Run` after credentials are settled (lines 158-273):
look up the account, scan, then run the deletion loop over the candidates
back to front; `Run` returns `nil` after the loop regardless of individual
deletion failures. -/
def runAfterAuth (cmd : Cmd) (endTime : Int) (pre : List NetworkCall)
    (getAccount : Except String String) (pages : List (Except String Page))
    (deleteResults : String → Option String) : RunResult :=
  match getAccount with
  | Except.error e => ⟨pre ++ [NetworkCall.getAccount], ⟨[], [], []⟩, [], some e⟩
  | Except.ok _account =>
    let sc := scanPages cmd endTime pages []
    let pre2 := pre ++ [NetworkCall.getAccount] ++
      List.replicate sc.2 NetworkCall.listStatuses
    match sc.1 with
    | Except.error e => ⟨pre2, ⟨[], [], []⟩, [], some e⟩
    | Except.ok toDelete =>
      ⟨pre2, execLoop cmd deleteResults (deletionOrder toDelete), toDelete, none⟩

/-- `Cmd.Run` (main.go lines 111-274) as a function of the run
configuration, the current time and the external world: load the config
(fatal on error); if `ClientID` or `ClientSecret` is empty, register the
app (fatal on error), install the fresh credentials and write the config
back, DISCARDING the result of `WriteConfig` (line 147 ignores the returned
error, so `_writeConfig` is never consulted); then proceed to the account
lookup, the scan and the deletion loop. -/
def Cmd.Run (cmd : Cmd) (now : Int) : RunWorld → RunResult
  | ⟨load, registerApp, _writeConfig, getAccount, pages, deleteResults⟩ =>
    let endTime := now + timeMax
    match Cmd.LoadConfig load with
    | Except.error e => ⟨[], ⟨[], [], []⟩, [], some e⟩
    | Except.ok config =>
      if config.clientID == "" || config.clientSecret == "" then
        match registerApp with
        | Except.error e => ⟨[NetworkCall.registerApp], ⟨[], [], []⟩, [], some e⟩
        | Except.ok app =>
          let _config := { config with clientID := app.1, clientSecret := app.2 }
          runAfterAuth cmd endTime [NetworkCall.registerApp]
            getAccount pages deleteResults
      else
        runAfterAuth cmd endTime [] getAccount pages deleteResults

/-! Concrete instances used by witnesses and counterexamples.  `baseCmd`
carries the default values of every CLI flag as declared in the `kong`
tags of struct `Cmd`. -/

/-- The CLI defaults: slow on, exclude replies/pinned/bookmarked/DMs on,
exclude public/boosts off, count 10, no dry-run, not quiet, no burn-it-all. -/
def baseCmd : Cmd :=
  ⟨"tootfyre.toml", true, true, true, true, false, false, true, 10, false, false, false⟩

/-- A plain status far older than any 30-day cutoff around time zero:
no reply, no boost, unlisted, not pinned, not bookmarked. -/
def plainStatus : Status :=
  ⟨"101", "u101", -100000000000000000, "hello", none, false, "unlisted",
    false, false, false⟩

/-- Like `plainStatus` but pinned. -/
def pinnedStatus : Status := { plainStatus with id := "102", pinned := true }

/-- A second plain status, created later than `plainStatus` but still far
older than the cutoff. -/
def newerStatus : Status := { plainStatus with id := "103", createdAt := -90000000000000000 }

/-- All statuses the service would deliver across the successful pages, in
arrival order. -/
def fetchedStatuses : List (Except String Page) → List Status
  | [] => []
  | Except.error _ :: rest => fetchedStatuses rest
  | Except.ok page :: rest => page.statuses ++ fetchedStatuses rest

/-- One page delivering one `plainStatus` and reporting end-of-stream. -/
def singlePage : Page := ⟨[plainStatus], "", ""⟩

/-- An end-of-stream page where the provider cleared only the upper bound:
`MaxID` empty, `MinID` still set. -/
def halfClearedPage : Page := ⟨[], "", "5"⟩

/-- A page with both bounds still set, as in mid-stream. -/
def midStreamPage : Page := ⟨[], "a", "b"⟩

/-- A page with both bounds cleared and no statuses. -/
def endPage : Page := ⟨[], "", ""⟩

/-- A newest-first page carrying `newerStatus` then `plainStatus`, with
end-of-stream bounds. -/
def sortedPage : Page := ⟨[newerStatus, plainStatus], "", ""⟩

/-- Config-file contents with a server but no access token. -/
def configMissingToken : Config := ⟨"https://example.test", "", "", ""⟩

/-- A world whose config file decodes to `configMissingToken` and whose
remote service would answer every call successfully. -/
def worldMissingToken : RunWorld :=
  ⟨LoadOutcome.decoded configMissingToken, Except.ok ("i", "s"), Except.ok (),
    Except.ok "acct", [Except.ok singlePage], fun _ => none⟩

/-- Complete config-file contents. -/
def fullConfig : Config := ⟨"https://example.test", "i", "s", "t"⟩

/-- A world with a complete config whose service answers every fetch with
`sortedPage` end-of-stream data and fails every deletion with "boom". -/
def worldAllDeletesFail : RunWorld :=
  ⟨LoadOutcome.decoded fullConfig, Except.ok ("i", "s"), Except.ok (),
    Except.ok "acct", [Except.ok sortedPage], fun _ => some "boom"⟩

/-! Helper lemmas shared by several claim proofs. -/

/-- Changing only `dryRun` does not change the filter. -/
theorem eligible_set_dryRun (cmd : Cmd) (b : Bool) (endTime : Int) (status : Status) :
    eligible { cmd with dryRun := b } endTime status = eligible cmd endTime status := rfl

/-- Changing only `dryRun` does not change the inner selection loop. -/
theorem processStatuses_set_dryRun (cmd : Cmd) (b : Bool) (endTime : Int) :
    ∀ (l td : List Status),
      processStatuses { cmd with dryRun := b } endTime td l =
        processStatuses cmd endTime td l
  | [], _ => rfl
  | status :: rest, td => by
    simp only [processStatuses, eligible_set_dryRun]
    split
    · split
      · rfl
      · exact processStatuses_set_dryRun cmd b endTime rest _
    · exact processStatuses_set_dryRun cmd b endTime rest td

/-- Changing only `dryRun` does not change the pagination walk. -/
theorem scanPages_set_dryRun (cmd : Cmd) (b : Bool) (endTime : Int) :
    ∀ (ps : List (Except String Page)) (td : List Status),
      scanPages { cmd with dryRun := b } endTime ps td = scanPages cmd endTime ps td
  | [], _ => rfl
  | Except.error _ :: _, _ => rfl
  | Except.ok page :: rest, td => by
    simp only [scanPages, processStatuses_set_dryRun]
    split
    · rfl
    · split
      · rfl
      · split
        · rfl
        · rw [scanPages_set_dryRun cmd b endTime rest]

/-- In dry-run mode the deletion loop issues no calls, logs no deletion
errors, and logs every candidate as a would-be deletion, in order. -/
theorem execLoop_dryRun (cmd : Cmd) (deleteResults : String → Option String)
    (h : cmd.dryRun = true) :
    ∀ l : List Status, execLoop cmd deleteResults l = ⟨[], [], l.map Status.id⟩
  | [] => rfl
  | status :: rest => by
    simp only [execLoop, execLoop_dryRun cmd deleteResults h rest, h, List.map,
      if_true, ite_true]

/-- Outside dry-run mode the deletion loop calls `DeleteStatus` once per
candidate, in order, and logs exactly the errors of the failed calls. -/
theorem execLoop_not_dryRun (cmd : Cmd) (deleteResults : String → Option String)
    (h : cmd.dryRun = false) :
    ∀ l : List Status,
      execLoop cmd deleteResults l =
        ⟨l.map Status.id, l.filterMap (fun s => deleteResults s.id), []⟩
  | [] => rfl
  | status :: rest => by
    simp only [execLoop, execLoop_not_dryRun cmd deleteResults h rest, h,
      List.map, List.filterMap_cons]
    cases deleteResults status.id <;> simp

/-- Size invariant of the inner loop: entering a page strictly below the
count cap, the list never exceeds the cap, and if the labelled break did
not fire it is still strictly below the cap. -/
theorem processStatuses_length (cmd : Cmd) (endTime : Int) :
    ∀ (l td : List Status), (td.length : Int) < cmd.count →
      (((processStatuses cmd endTime td l).1.length : Int) ≤ cmd.count ∧
        ((processStatuses cmd endTime td l).2 = false →
          ((processStatuses cmd endTime td l).1.length : Int) < cmd.count))
  | [], td, hlt => ⟨le_of_lt hlt, fun _ => hlt⟩
  | status :: rest, td, hlt => by
    simp only [processStatuses]
    split
    · split
      · next hge =>
        refine ⟨?_, fun hfalse => by simp at hfalse⟩
        simp only [List.length_append, List.length_cons, List.length_nil]
        push_cast
        omega
      · next hge =>
        exact processStatuses_length cmd endTime rest _ (lt_of_not_ge hge)
    · exact processStatuses_length cmd endTime rest td hlt

/-- Size invariant of the pagination walk: starting strictly below the
count cap, any successful scan result respects the cap. -/
theorem scanPages_length (cmd : Cmd) (endTime : Int) :
    ∀ (ps : List (Except String Page)) (td : List Status),
      (td.length : Int) < cmd.count →
      ∀ td', (scanPages cmd endTime ps td).1 = Except.ok td' →
        (td'.length : Int) ≤ cmd.count
  | [], td, hlt, td', h => by
    simp only [scanPages] at h
    cases h
    exact le_of_lt hlt
  | Except.error e :: _, td, hlt, td', h => by
    simp only [scanPages] at h
    cases h
  | Except.ok page :: rest, td, hlt, td', h => by
    have hp := processStatuses_length cmd endTime page.statuses td hlt
    simp only [scanPages] at h
    split at h
    · cases h
      exact hp.1
    · split at h
      · cases h
        exact hp.1
      · split at h
        · cases h
          exact hp.1
        · next hbr _ _ =>
          exact scanPages_length cmd endTime rest _
            (hp.2 (Bool.not_eq_true _ ▸ hbr)) td' h

/-- The inner loop only appends: its output extends the input by a
sublist of the page, preserving arrival order. -/
theorem processStatuses_sublist (cmd : Cmd) (endTime : Int) :
    ∀ (l td : List Status), ∃ picked,
      (processStatuses cmd endTime td l).1 = td ++ picked ∧ List.Sublist picked l
  | [], td => ⟨[], by simp [processStatuses]⟩
  | status :: rest, td => by
    simp only [processStatuses]
    split
    · split
      · exact ⟨[status], rfl, (List.nil_sublist rest).cons₂ status⟩
      · obtain ⟨picked, hp, hs⟩ := processStatuses_sublist cmd endTime rest (td ++ [status])
        exact ⟨status :: picked, by simpa using hp, hs.cons₂ status⟩
    · obtain ⟨picked, hp, hs⟩ := processStatuses_sublist cmd endTime rest td
      exact ⟨picked, hp, hs.cons status⟩

/-- The pagination walk only appends: a successful scan result extends the
input list by a sublist of the fetched stream, preserving arrival order. -/
theorem scanPages_sublist (cmd : Cmd) (endTime : Int) :
    ∀ (ps : List (Except String Page)) (td td' : List Status),
      (scanPages cmd endTime ps td).1 = Except.ok td' →
      ∃ picked, td' = td ++ picked ∧ List.Sublist picked (fetchedStatuses ps)
  | [], td, td', h => by
    cases h
    exact ⟨[], by simp, List.nil_sublist _⟩
  | Except.error e :: _, td, td', h => by
    cases h
  | Except.ok page :: rest, td, td', h => by
    obtain ⟨picked, hp, hs⟩ := processStatuses_sublist cmd endTime page.statuses td
    have hsub : List.Sublist picked (fetchedStatuses (Except.ok page :: rest)) :=
      hs.trans (List.sublist_append_left page.statuses (fetchedStatuses rest))
    simp only [scanPages] at h
    split at h
    · cases h
      exact ⟨picked, hp, hsub⟩
    · split at h
      · cases h
        exact ⟨picked, hp, hsub⟩
      · split at h
        · cases h
          exact ⟨picked, hp, hsub⟩
        · obtain ⟨picked2, hp2, hs2⟩ := scanPages_sublist cmd endTime rest _ td' h
          refine ⟨picked ++ picked2, by rw [hp2, hp, List.append_assoc], ?_⟩
          exact hs.append hs2

/-! Claim theorems. -/

/-- C2 counterexample: with `BurnItAll=true` the exclusion block is skipped
entirely, so a pinned status is eligible even though `ExcludePinned=true`
— the claim as stated (regardless of ALL other flags) is false. -/
theorem C2_counterexample :
    { baseCmd with burnItAll := true }.excludePinned = true ∧
      pinnedStatus.pinned = true ∧
      eligible { baseCmd with burnItAll := true } (0 + timeMax) pinnedStatus = true := by
  refine ⟨rfl, rfl, rfl⟩

/-- C2 (amended with `BurnItAll=false`): if the burn-it-all override is off,
`ExcludePinned=true` and the status is pinned, the filter rejects the
status regardless of every other flag. -/
theorem C2_excludePinned (cmd : Cmd) (endTime : Int) (status : Status)
    (hburn : cmd.burnItAll = false) (hex : cmd.excludePinned = true)
    (hpin : status.pinned = true) :
    eligible cmd endTime status = false := by
  simp [eligible, hburn, hex, hpin]

/-- C2 witness: the amended claim at the CLI defaults and a pinned status. -/
theorem C2_excludePinned_witness :
    baseCmd.burnItAll = false ∧ baseCmd.excludePinned = true ∧
      pinnedStatus.pinned = true ∧
      eligible baseCmd (0 + timeMax) pinnedStatus = false :=
  ⟨rfl, rfl, rfl, C2_excludePinned baseCmd (0 + timeMax) pinnedStatus rfl rfl rfl⟩

/-- C4: with `BurnItAll=true` every status is eligible, whatever its age,
visibility, pinned/bookmarked/boost/reply flags, and whatever the other
exclusion flags say. -/
theorem C4_burnItAll (cmd : Cmd) (endTime : Int) (status : Status)
    (hburn : cmd.burnItAll = true) :
    eligible cmd endTime status = true := by
  simp [eligible, hburn]

/-- C4 witness: a young, pinned, bookmarked, public, boosted reply is
eligible under `BurnItAll=true` with every exclusion flag on. -/
theorem C4_burnItAll_witness :
    eligible
      { baseCmd with burnItAll := true, excludePublic := true, excludeBoosts := true }
      (0 + timeMax)
      ⟨"104", "u104", 0, "x", some "9", true, "public", true, true, true⟩ = true :=
  C4_burnItAll _ _ _ rfl

/-- C7: with `BurnItAll=false`, a status whose creation time is at or after
`endTime = now + timeMax` (younger than the 30-day cutoff) is never
eligible, independently of every category flag. -/
theorem C7_tooYoung (cmd : Cmd) (endTime : Int) (status : Status)
    (hburn : cmd.burnItAll = false) (hage : endTime ≤ status.createdAt) :
    eligible cmd endTime status = false := by
  have hnl : ¬ (status.createdAt < endTime) := not_lt.mpr hage
  simp [eligible, hburn, hnl]

/-- C7 witness: a status created exactly at the cutoff is rejected at the
CLI defaults even though no category exclusion matches it. -/
theorem C7_tooYoung_witness :
    baseCmd.burnItAll = false ∧
      eligible baseCmd (0 + timeMax) { plainStatus with createdAt := 0 + timeMax } = false :=
  ⟨rfl, C7_tooYoung baseCmd (0 + timeMax) { plainStatus with createdAt := 0 + timeMax }
    rfl (le_refl _)⟩

/-- C1 counterexample: with `--count 0` the cap check runs only after the
append (line 225), so one candidate is still collected and the Candidate
List length 1 exceeds the configured count 0. -/
theorem C1_counterexample :
    (scanPages { baseCmd with count := 0 } 0 [Except.ok singlePage] []).1 =
      Except.ok [plainStatus] ∧
      ¬ (([plainStatus].length : Int) ≤ Cmd.count { baseCmd with count := 0 }) := by
  exact ⟨rfl, by decide⟩

/-- C1 (amended: requires `Count ≥ 1`): the Candidate List of a scan never
exceeds `Count`; once an append reaches the cap the labelled break fires at
once, so the rest of the page is not examined and no further page is
fetched. -/
theorem C1_candidate_limit (cmd : Cmd) (endTime : Int) (hcount : 1 ≤ cmd.count) :
    (∀ (pages : List (Except String Page)) (td' : List Status),
        (scanPages cmd endTime pages []).1 = Except.ok td' →
        (td'.length : Int) ≤ cmd.count) ∧
    (∀ (td : List Status) (status : Status) (rest : List Status),
        eligible cmd endTime status = true →
        cmd.count ≤ (td.length : Int) + 1 →
        processStatuses cmd endTime td (status :: rest) = (td ++ [status], true)) ∧
    (∀ (page : Page) (rest : List (Except String Page)) (td : List Status),
        (processStatuses cmd endTime td page.statuses).2 = true →
        scanPages cmd endTime (Except.ok page :: rest) td =
          (Except.ok (processStatuses cmd endTime td page.statuses).1, 1)) := by
  refine ⟨?_, ?_, ?_⟩
  · intro pages td' h
    refine scanPages_length cmd endTime pages [] ?_ td' h
    simpa using lt_of_lt_of_le Int.zero_lt_one hcount
  · intro td status rest helig hge
    simp only [processStatuses, helig, if_true]
    rw [if_pos]
    simp only [List.length_append, List.length_cons, List.length_nil]
    push_cast
    omega
  · intro page rest td hbr
    simp [scanPages, hbr]

/-- C1 witness: at the CLI defaults (count 10) a one-page scan returning a
single candidate respects the cap. -/
theorem C1_candidate_limit_witness :
    1 ≤ baseCmd.count ∧ (([plainStatus].length : Int) ≤ baseCmd.count) :=
  ⟨by decide,
    (C1_candidate_limit baseCmd 0 (by decide)).1 [Except.ok singlePage] [plainStatus] rfl⟩

/-- C3 counterexample: the limit is not reached on `halfClearedPage` and
its bounds are NOT both empty (`MinID` is "5"), yet the walk stops after
this single page — the break at line 230 needs only `MaxID` to be empty, so
the stated biconditional (stop iff BOTH bounds empty) fails. -/
theorem C3_counterexample :
    (processStatuses baseCmd 0 [] halfClearedPage.statuses).2 = false ∧
      ¬ (halfClearedPage.maxID = "" ∧ halfClearedPage.minID = "") ∧
      (scanPages baseCmd 0 [Except.ok halfClearedPage, Except.ok midStreamPage] []).2 = 1 :=
  ⟨rfl, by decide, rfl⟩

/-- C3 (amended): after a page on which the candidate limit was not
reached, the walk stops if and only if at least one of the two bounds is
empty (in particular it terminates when both are empty, with however few
candidates), and otherwise fetches the next page. -/
theorem C3_stop_condition (cmd : Cmd) (endTime : Int) (page : Page)
    (rest : List (Except String Page)) (td : List Status)
    (hnb : (processStatuses cmd endTime td page.statuses).2 = false) :
    (scanPages cmd endTime (Except.ok page :: rest) td).2 =
      (if page.maxID = "" ∨ page.minID = "" then 1
       else (scanPages cmd endTime rest
         (processStatuses cmd endTime td page.statuses).1).2 + 1) := by
  simp only [scanPages, hnb]
  by_cases hmax : page.maxID = "" <;> by_cases hmin : page.minID = "" <;>
    simp [hmax, hmin]

/-- C3 witness: a page with both bounds empty and no eligible statuses
stops the walk after one fetch even though zero candidates were found. -/
theorem C3_stop_condition_witness :
    (processStatuses baseCmd 0 [] endPage.statuses).2 = false ∧
      (scanPages baseCmd 0 [Except.ok endPage, Except.ok midStreamPage] []).2 = 1 := by
  refine ⟨rfl, ?_⟩
  rw [C3_stop_condition baseCmd 0 endPage [Except.ok midStreamPage] [] rfl]
  simp [endPage]

/-- C6: when the service delivers the statuses newest-created-first (its
documented reverse-chronological order), the deletion loop — which walks
the accumulated Candidate List back to front — acts oldest-created-first:
every candidate it acts on was created no later than every candidate acted
on after it. -/
theorem C6_oldest_first (cmd : Cmd) (endTime : Int)
    (pages : List (Except String Page)) (td : List Status)
    (hok : (scanPages cmd endTime pages []).1 = Except.ok td)
    (hsorted : (fetchedStatuses pages).Pairwise
      (fun a b => b.createdAt ≤ a.createdAt)) :
    (deletionOrder td).Pairwise (fun a b => a.createdAt ≤ b.createdAt) := by
  obtain ⟨picked, hp, hsub⟩ := scanPages_sublist cmd endTime pages [] td hok
  simp only [List.nil_append] at hp
  subst hp
  have hpw := hsorted.sublist hsub
  rw [deletionOrder, List.pairwise_reverse]
  exact hpw

/-- C6 witness: two statuses fetched newest-first are deleted
oldest-first. -/
theorem C6_oldest_first_witness :
    ((scanPages baseCmd 0 [Except.ok sortedPage] []).1 =
        Except.ok [newerStatus, plainStatus]) ∧
      (deletionOrder [newerStatus, plainStatus]).Pairwise
        (fun a b => a.createdAt ≤ b.createdAt) := by
  refine ⟨rfl, ?_⟩
  refine C6_oldest_first baseCmd 0 [Except.ok sortedPage] [newerStatus, plainStatus] rfl ?_
  simp [fetchedStatuses, sortedPage, newerStatus, plainStatus]

/-- Specialisation of `execLoop_dryRun` to a flag set whose `dryRun` field
was just switched on. -/
theorem execLoop_set_dryRun_true (cmd : Cmd) (dr : String → Option String)
    (l : List Status) :
    execLoop { cmd with dryRun := true } dr l = ⟨[], [], l.map Status.id⟩ :=
  execLoop_dryRun { cmd with dryRun := true } dr rfl l

/-- Dry-run invariance of the post-authentication tail: the dry run issues
no delete call, computes the same candidate list as the wet run, and logs
exactly the candidates in processing order. -/
theorem runAfterAuth_dryRun (cmd : Cmd) (endTime : Int) (pre : List NetworkCall)
    (ga : Except String String) (pgs : List (Except String Page))
    (dr : String → Option String) :
    (runAfterAuth { cmd with dryRun := true } endTime pre ga pgs dr).exec.deleteCalls = [] ∧
    (runAfterAuth { cmd with dryRun := true } endTime pre ga pgs dr).toDelete =
      (runAfterAuth { cmd with dryRun := false } endTime pre ga pgs dr).toDelete ∧
    (runAfterAuth { cmd with dryRun := true } endTime pre ga pgs dr).exec.dryRunLogs =
      (deletionOrder
        ((runAfterAuth { cmd with dryRun := false } endTime pre ga pgs dr).toDelete)).map
        Status.id := by
  cases ga with
  | error e => simp [runAfterAuth, deletionOrder]
  | ok acct =>
    simp only [runAfterAuth, scanPages_set_dryRun]
    cases hs : (scanPages cmd endTime pgs []).1 with
    | error e => simp [hs, deletionOrder]
    | ok td => simp [hs, execLoop_set_dryRun_true]

/-- C5: against the same external world, a run with `DryRun=true` issues
zero `DeleteStatus` calls, computes the identical candidate set to the run
with `DryRun=false`, and logs as would-be deletions exactly that set in
processing order. -/
theorem C5_dryRun_identical (cmd : Cmd) (now : Int) (w : RunWorld) :
    (Cmd.Run { cmd with dryRun := true } now w).exec.deleteCalls = [] ∧
    (Cmd.Run { cmd with dryRun := true } now w).toDelete =
      (Cmd.Run { cmd with dryRun := false } now w).toDelete ∧
    (Cmd.Run { cmd with dryRun := true } now w).exec.dryRunLogs =
      (deletionOrder ((Cmd.Run { cmd with dryRun := false } now w).toDelete)).map
        Status.id := by
  obtain ⟨load, reg, wc, ga, pgs, dr⟩ := w
  simp only [Cmd.Run]
  cases Cmd.LoadConfig load with
  | error e => simp [deletionOrder]
  | ok config =>
    by_cases hcid : (config.clientID == "" || config.clientSecret == "") = true
    · simp only [hcid, if_true]
      cases reg with
      | error e => simp [deletionOrder]
      | ok app => exact runAfterAuth_dryRun cmd (now + timeMax) _ ga pgs dr
    · simp only [hcid, if_false]
      exact runAfterAuth_dryRun cmd (now + timeMax) _ ga pgs dr

/-- C8: if the config file decodes to contents with a non-empty `Server`
but an empty `AccessToken`, `LoadConfig` fails with the field-specific
message and `Run` aborts before any network call: no registration, no
account lookup, no listing, no deletion. -/
theorem C8_missing_accessToken (cmd : Cmd) (now : Int) (w : RunWorld) (config : Config)
    (hload : w.load = LoadOutcome.decoded config)
    (hserver : ¬ config.server = "")
    (htoken : config.accessToken = "") :
    (Cmd.Run cmd now w).ret = some errAccessTokenRequired ∧
      (Cmd.Run cmd now w).preCalls = [] ∧
      (Cmd.Run cmd now w).exec.deleteCalls = [] := by
  obtain ⟨load, reg, wc, ga, pgs, dr⟩ := w
  simp only at hload
  subst hload
  simp [Cmd.Run, Cmd.LoadConfig, hserver, htoken]

/-- C8 witness: the run against `worldMissingToken` aborts with the
access-token message, having made no network call. -/
theorem C8_missing_accessToken_witness :
    (Cmd.Run baseCmd 0 worldMissingToken).ret = some errAccessTokenRequired ∧
      (Cmd.Run baseCmd 0 worldMissingToken).preCalls = [] ∧
      (Cmd.Run baseCmd 0 worldMissingToken).exec.deleteCalls = [] :=
  C8_missing_accessToken baseCmd 0 worldMissingToken configMissingToken rfl
    (by decide) rfl

/-- C9: in a non-dry run that reaches the deletion phase, every candidate
receives its `DeleteStatus` call whatever the per-call outcomes are, each
failure is logged (its error lands in the log record), and `Run` still
returns `nil` — exit status zero — even if every single deletion fails. -/
theorem C9_delete_failures_nonfatal (cmd : Cmd) (now : Int) (w : RunWorld)
    (config : Config) (app : String × String) (acct : String) (td : List Status)
    (hdry : cmd.dryRun = false)
    (hload : Cmd.LoadConfig w.load = Except.ok config)
    (hreg : w.registerApp = Except.ok app)
    (hacct : w.getAccount = Except.ok acct)
    (hscan : (scanPages cmd (now + timeMax) w.pages []).1 = Except.ok td) :
    (Cmd.Run cmd now w).ret = none ∧
      (Cmd.Run cmd now w).exec.deleteCalls = (deletionOrder td).map Status.id ∧
      (Cmd.Run cmd now w).exec.deleteErrors =
        (deletionOrder td).filterMap (fun s => w.deleteResults s.id) := by
  obtain ⟨load, reg, wc, ga, pgs, dr⟩ := w
  simp only at hload hreg hacct hscan
  subst hreg
  subst hacct
  simp only [Cmd.Run, hload]
  by_cases hcid : (config.clientID == "" || config.clientSecret == "") = true
  · simp [hcid, runAfterAuth, hscan, execLoop_not_dryRun cmd dr hdry]
  · simp [hcid, runAfterAuth, hscan, execLoop_not_dryRun cmd dr hdry]

/-- C9 witness: with every deletion failing, both candidates still get
their calls, both errors are logged, and the run returns `nil`. -/
theorem C9_delete_failures_nonfatal_witness :
    (Cmd.Run baseCmd 0 worldAllDeletesFail).ret = none ∧
      (Cmd.Run baseCmd 0 worldAllDeletesFail).exec.deleteCalls =
        (deletionOrder [newerStatus, plainStatus]).map Status.id ∧
      (Cmd.Run baseCmd 0 worldAllDeletesFail).exec.deleteErrors =
        (deletionOrder [newerStatus, plainStatus]).filterMap
          (fun s => worldAllDeletesFail.deleteResults s.id) :=
  C9_delete_failures_nonfatal baseCmd 0 worldAllDeletesFail fullConfig
    ("i", "s") "acct" [newerStatus, plainStatus] rfl rfl rfl rfl rfl

/-- C10: the result of `WriteConfig` is ignored at line 147, so the outcome
of an entire run — calls made, candidates, logs, returned error, hence exit
status — is the same whatever the config write-back would return. -/
theorem C10_writeConfig_error_discarded (cmd : Cmd) (now : Int) (w : RunWorld)
    (e : Except String Unit) :
    Cmd.Run cmd now { w with writeConfig := e } = Cmd.Run cmd now w := by
  cases w
  rfl
